import Mathlib

/-!
# Fast-sync scheduler: shallow embedding and verification

A shallow embedding of the fast-sync scheduler (`blockchain/v2` style
scheduler found in the repository sources) together with proofs about its
event handlers.  Go maps are modelled as association lists with
deterministic insert/erase, `time.Time` and `time.Duration` as integer
nanosecond counts, peer identifiers as byte strings (`List Nat` compared
lexicographically, mirroring `bytes.Compare`), and wall-clock reads
(`time.Now()` / `time.Since(x)`) as an explicit `now` parameter threaded
into exactly the handlers whose Go source reads the clock.
-/

namespace FastSync

/-! ## Association lists (Go `map` embedding) -/

/-- Lookup of the first binding of a key, mirroring Go map indexing. -/
def alookup [DecidableEq κ] : List (κ × ν) → κ → Option ν
  | [], _ => none
  | kv :: rest, key => if kv.1 = key then some kv.2 else alookup rest key

/-- Update-or-append, mirroring Go `m[k] = v`. -/
def ainsert [DecidableEq κ] : List (κ × ν) → κ → ν → List (κ × ν)
  | [], key, val => [(key, val)]
  | kv :: rest, key, val =>
    if kv.1 = key then (key, val) :: rest else kv :: ainsert rest key val

/-- Key removal, mirroring Go `delete(m, k)`. -/
def aerase [DecidableEq κ] (m : List (κ × ν)) (key : κ) : List (κ × ν) :=
  m.filter (fun kv => decide (kv.1 ≠ key))

/-- The keys of an association list. -/
def akeys (m : List (κ × ν)) : List κ := m.map Prod.fst

/-! ## Peer identifiers

`p2p.ID` is a string; the scheduler orders identifiers with
`bytes.Compare`, i.e. lexicographically on the byte sequence. -/

abbrev PeerID := List Nat

/-- `idLt a b` holds when `bytes.Compare(a, b) == -1`: strict
lexicographic order on byte strings. -/
def idLt : PeerID → PeerID → Bool
  | [], [] => false
  | [], _ :: _ => true
  | _ :: _, [] => false
  | a :: as, b :: bs => if a < b then true else if b < a then false else idLt as bs

/-- Sorted insertion with respect to `idLt`; building block of
`sort.Sort(PeerByID(...))`. -/
def insertSorted (x : PeerID) : List PeerID → List PeerID
  | [] => [x]
  | y :: ys => if idLt x y then x :: y :: ys else y :: insertSorted x ys

/-- `sort.Sort(PeerByID(ids))`: ascending sort by byte-wise identifier
order (insertion sort; the identifiers in every use are distinct map
keys, so any correct sort produces the same list). -/
def sortByID : List PeerID → List PeerID
  | [] => []
  | x :: xs => insertSorted x (sortByID xs)

/-- The running-minimum fold of `selectPeer`
(`if int64(mp) < minPending { minPending = int64(mp) }`). -/
def natMinFold (l : List Nat) (s : Nat) : Nat :=
  l.foldl (fun m c => if c < m then c else m) s

/-! ## Time -/

/-- `time.Time` as nanoseconds since the epoch; the zero value
`time.Time{}` is `0`. -/
abbrev Time := Int

/-- `time.Duration` in nanoseconds. -/
abbrev Duration := Int

/-! ## Peer and block state -/

inductive peerState where
  | New
  | Ready
  | Removed
deriving DecidableEq, Repr

inductive blockState where
  | Unknown
  | New
  | Pending
  | Received
  | Processed
deriving DecidableEq, Repr

structure scPeer where
  peerID : PeerID
  state : peerState
  base : Int
  height : Int
  lastTouched : Time
  lastRate : Int
deriving DecidableEq, Repr

/-- `newScPeer`: fresh peer entry (`lastRate` is the Go zero value). -/
def newScPeer (peerID : PeerID) : scPeer :=
  { peerID := peerID, state := .New, base := -1, height := -1,
    lastTouched := 0, lastRate := 0 }

/-! ## Scheduler state -/

structure scheduler where
  initHeight : Int
  /-- next block that needs to be processed (the cursor). -/
  height : Int
  lastAdvance : Time
  syncTimeout : Duration
  peers : List (PeerID × scPeer)
  peerTimeout : Duration
  minRecvRate : Int
  targetPending : Nat
  blockStates : List (Int × blockState)
  pendingBlocks : List (Int × PeerID)
  pendingTime : List (Int × Time)
  receivedBlocks : List (Int × PeerID)
deriving DecidableEq, Repr

def newScheduler (initHeight : Int) (startTime : Time) : scheduler :=
  { initHeight := initHeight
    height := initHeight
    lastAdvance := startTime
    syncTimeout := 60 * 1000000000
    peers := []
    peerTimeout := 15 * 1000000000
    minRecvRate := 0
    targetPending := 10
    blockStates := []
    pendingBlocks := []
    pendingTime := []
    receivedBlocks := [] }

namespace scheduler

/-- `ensurePeer`: return the scheduler with the peer present (created
`New` when absent). -/
def ensurePeer (sc : scheduler) (peerID : PeerID) : scheduler :=
  match alookup sc.peers peerID with
  | some _ => sc
  | none => { sc with peers := ainsert sc.peers peerID (newScPeer peerID) }

/-- `touchPeer`: set `lastTouched` of a `Ready` peer, failing otherwise. -/
def touchPeer (sc : scheduler) (peerID : PeerID) (t : Time) : Except String scheduler :=
  match alookup sc.peers peerID with
  | none => .error "could not find peer"
  | some peer =>
    if peer.state ≠ .Ready then .error "tried to touch peer not in Ready state"
    else .ok { sc with peers := ainsert sc.peers peerID { peer with lastTouched := t } }

def setStateAtHeight (sc : scheduler) (height : Int) (st : blockState) : scheduler :=
  { sc with blockStates := ainsert sc.blockStates height st }

def getStateAtHeight (sc : scheduler) (height : Int) : blockState :=
  if height < sc.height then .Processed
  else (alookup sc.blockStates height).getD .Unknown

/-- `removePeer`: revert the peer's pending and received blocks to `New`,
mark it `Removed`, and truncate the block table above the maximum height
of the remaining `Ready` peers. Idempotent. -/
def removePeer (sc : scheduler) (peerID : PeerID) : scheduler :=
  match alookup sc.peers peerID with
  | none => sc
  | some peer =>
    if peer.state = .Removed then sc
    else
      let pendHs := (sc.pendingBlocks.filter (fun kv => decide (kv.2 = peerID))).map Prod.fst
      let sc1 : scheduler := { sc with
        blockStates := pendHs.foldl (fun bs h => ainsert bs h .New) sc.blockStates
        pendingTime := pendHs.foldl aerase sc.pendingTime
        pendingBlocks := pendHs.foldl aerase sc.pendingBlocks }
      let rcvHs := (sc1.receivedBlocks.filter (fun kv => decide (kv.2 = peerID))).map Prod.fst
      let sc2 : scheduler := { sc1 with
        blockStates := rcvHs.foldl (fun bs h => ainsert bs h .New) sc1.blockStates
        receivedBlocks := rcvHs.foldl aerase sc1.receivedBlocks }
      let peers2 := ainsert sc2.peers peerID { peer with state := .Removed }
      let maxPeerHeight := peers2.foldl
        (fun mx kv =>
          if kv.2.state = .Ready ∧ kv.2.peerID ≠ peer.peerID ∧ mx < kv.2.height
          then kv.2.height else mx) 0
      { sc2 with peers := peers2
                 blockStates := sc2.blockStates.filter (fun kv => decide (kv.1 ≤ maxPeerHeight)) }

/-- `maxHeight`: max height over `Ready` peers, defaulting to
`sc.height - 1`. -/
def maxHeight (sc : scheduler) : Int :=
  sc.peers.foldl
    (fun mx kv => if kv.2.state = .Ready ∧ mx < kv.2.height then kv.2.height else mx)
    (sc.height - 1)

/-- Loop body of `addNewBlocks`: `for i := sc.height; i < targetPending+sc.height; i++`,
breaking past `maxHeight` and promoting `Unknown` heights to `New`. -/
def addNewLoop (cursor maxH : Int) : Nat → Int → List (Int × blockState) → List (Int × blockState)
  | 0, _, bs => bs
  | n + 1, i, bs =>
    if maxH < i then bs
    else
      let bs' :=
        if (if i < cursor then blockState.Processed else (alookup bs i).getD .Unknown) = .Unknown
        then ainsert bs i .New else bs
      addNewLoop cursor maxH n (i + 1) bs'

/-- `addNewBlocks`: top up the block table with `New` entries when it has
fewer than `targetPending` entries. -/
def addNewBlocks (sc : scheduler) : scheduler :=
  if sc.targetPending ≤ sc.blockStates.length then sc
  else { sc with blockStates := addNewLoop sc.height (maxHeight sc) sc.targetPending sc.height sc.blockStates }

/-- `setPeerRange`: the Go function returns an error after having
possibly removed the peer, so the state change and the error are returned
together. -/
def setPeerRange (sc : scheduler) (peerID : PeerID) (base height : Int) :
    scheduler × Option String :=
  let sc1 := sc.ensurePeer peerID
  match alookup sc1.peers peerID with
  | none => (sc1, some "unreachable: ensurePeer guarantees presence")
  | some peer =>
    if peer.state = .Removed then (sc1, none)
    else if height < peer.height then
      (sc1.removePeer peerID, some "cannot move peer height lower")
    else if height < base then
      (sc1.removePeer peerID, some "cannot set peer base higher than its height")
    else
      let readyPeer := { peer with base := base, height := height, state := peerState.Ready }
      let sc2 : scheduler := { sc1 with peers := ainsert sc1.peers peerID readyPeer }
      (sc2.addNewBlocks, none)

def getPeersWithHeight (sc : scheduler) (height : Int) : List PeerID :=
  (sc.peers.filter
    (fun kv => decide (kv.2.state = .Ready ∧ kv.2.base ≤ height ∧ height ≤ kv.2.height))).map
    (fun kv => kv.2.peerID)

def prunablePeers (sc : scheduler) (peerTimeout : Duration) (minRecvRate : Int) (now : Time) :
    List PeerID :=
  sortByID ((sc.peers.filter
    (fun kv => decide (kv.2.state = .Ready ∧
      (peerTimeout < now - kv.2.lastTouched ∨ kv.2.lastRate < minRecvRate)))).map Prod.fst)

/-- `markReceived` (CONTRACT in the source: peer exists and is Ready; the
`"missing peer"` branch stands for the nil dereference that contract rules
out). -/
def markReceived (sc : scheduler) (peerID : PeerID) (height size : Int) (now : Time) :
    Except String scheduler :=
  if sc.getStateAtHeight height ≠ .Pending ∨ alookup sc.pendingBlocks height ≠ some peerID then
    .error "received block without being requested"
  else
    match alookup sc.pendingTime height with
    | none => .error "clock error"
    | some t =>
      if now - t ≤ 0 then .error "clock error"
      else
        match alookup sc.peers peerID with
        | none => .error "missing peer"
        | some peer =>
          .ok { sc with
            peers := ainsert sc.peers peerID { peer with lastRate := Int.tdiv size (now - t) }
            blockStates := ainsert sc.blockStates height .Received
            pendingBlocks := aerase sc.pendingBlocks height
            pendingTime := aerase sc.pendingTime height
            receivedBlocks := ainsert sc.receivedBlocks height peerID }

def markPending (sc : scheduler) (peerID : PeerID) (height : Int) (t : Time) :
    Except String scheduler :=
  if sc.getStateAtHeight height ≠ .New then .error "block should be in blockStateNew"
  else
    match alookup sc.peers peerID with
    | none => .error "cannot find peer"
    | some peer =>
      if peer.state ≠ .Ready then .error "cannot schedule block from peer in this state"
      else if peer.height < height then .error "cannot request height above peer height"
      else if height < peer.base then .error "cannot request height below peer base"
      else .ok { sc with
        blockStates := ainsert sc.blockStates height .Pending
        pendingBlocks := ainsert sc.pendingBlocks height peerID
        pendingTime := ainsert sc.pendingTime height t }

/-- `markProcessed` (`now` is the handler's `time.Now()` read; the Go
function always returns a nil error). -/
def markProcessed (sc : scheduler) (height : Int) (now : Time) : scheduler :=
  scheduler.addNewBlocks { sc with
    lastAdvance := now
    height := height + 1
    pendingBlocks := aerase sc.pendingBlocks height
    pendingTime := aerase sc.pendingTime height
    receivedBlocks := aerase sc.receivedBlocks height
    blockStates := aerase sc.blockStates height }

def allBlocksProcessed (sc : scheduler) : Bool :=
  if sc.peers.isEmpty then false else decide (sc.maxHeight ≤ sc.height)

/-- Sentinel used by `nextHeightToSchedule` and `selectPeer`
(`math.MaxInt64`). -/
def maxInt64 : Int := 2 ^ 63 - 1

/-- Lowest height in `New` state, or `-1`. -/
def nextHeightToSchedule (sc : scheduler) : Int :=
  let m := sc.blockStates.foldl
    (fun m kv => if kv.2 = .New ∧ kv.1 < m then kv.1 else m) maxInt64
  if m = maxInt64 then -1 else m

def pendingFrom (sc : scheduler) (peerID : PeerID) : List Int :=
  (sc.pendingBlocks.filter (fun kv => decide (kv.2 = peerID))).map Prod.fst

/-- `selectPeer`: among the `Ready` peers covering the height, those with
the fewest pending requests, sorted by identifier, first one.  The Go code
groups the candidates into a map from pending count to peer list and takes
the entry of the minimal count; filtering the candidate list by the
minimal count yields that same list.  The second `.error` branch
corresponds to an out-of-range minimum and is unreachable for any Go map
(`len` is bounded by `math.MaxInt64`). -/
def selectPeer (sc : scheduler) (height : Int) : Except String PeerID :=
  let peers := sc.getPeersWithHeight height
  if peers.isEmpty then .error "cannot find peer for height"
  else
    let minPending := natMinFold (peers.map (fun id => (sc.pendingFrom id).length))
      maxInt64.toNat
    match sortByID (peers.filter (fun id => (sc.pendingFrom id).length = minPending)) with
    | [] => .error "unreachable: the minimum pending count is attained"
    | p :: _ => .ok p

end scheduler

/-! ## Events

Inbound events carry every timestamp used by the handlers except for the
wall-clock reads (`time.Now()` / `time.Since(...)`) occurring in
`handleResetState`, `markProcessed`, `handleTrySchedule` and
`handleTryPrunePeer`; those reads are modelled by the explicit `now`
argument of `handle`. -/

inductive Event where
  | bcResetState (lastBlockHeight initialHeight : Int)
  | bcStatusResponse (peerID : PeerID) (base height : Int)
  | bcBlockResponse (peerID : PeerID) (height size : Int) (time : Time)
  | bcNoBlockResponse (peerID : PeerID) (height : Int)
  | rTrySchedule (time : Time)
  | bcAddNewPeer (peerID : PeerID)
  | bcRemovePeer (peerID : PeerID)
  | rTryPrunePeer (time : Time)
  | pcBlockProcessed (height : Int)
  | pcBlockVerificationFailure (firstPeerID secondPeerID : PeerID)
deriving DecidableEq, Repr

/-- Outbound events (`scBlockReceived` carries the block; only its height
matters to the scheduler, so the embedding keeps the height). -/
inductive OutEvent where
  | noOp
  | scBlockRequest (peerID : PeerID) (height : Int)
  | scBlockReceived (peerID : PeerID) (height : Int)
  | scPeerError (peerID : PeerID) (reason : String)
  | scPeersPruned (peers : List PeerID)
  | scFinishedEv (reason : String)
  | scSchedulerFail (reason : String)
deriving DecidableEq, Repr

namespace scheduler

/-! ## Handlers -/

def handleBlockResponse (sc : scheduler) (peerID : PeerID) (height size : Int) (t : Time) :
    OutEvent × scheduler :=
  match sc.touchPeer peerID t with
  | .error _ => (.noOp, sc)
  | .ok sc1 =>
    match sc1.markReceived peerID height size t with
    | .error e => (.scPeerError peerID e, sc1.removePeer peerID)
    | .ok sc2 => (.scBlockReceived peerID height, sc2)

def handleNoBlockResponse (sc : scheduler) (peerID : PeerID) (_height : Int) :
    OutEvent × scheduler :=
  match alookup sc.peers peerID with
  | none => (.noOp, sc)
  | some peer =>
    if peer.state = .Removed then (.noOp, sc)
    else (.scPeerError peerID "peer claims no block for height", sc.removePeer peerID)

/-- `handleBlockProcessed`: `none` models the Go `panic` on a cursor
mismatch.  `markProcessed` always returns a nil error, so the
`scSchedulerFail` branch of the Go handler is dead. -/
def handleBlockProcessed (sc : scheduler) (height : Int) (now : Time) :
    Option (OutEvent × scheduler) :=
  if height ≠ sc.height then none
  else
    let sc1 := sc.markProcessed height now
    if sc1.allBlocksProcessed then some (.scFinishedEv "processed all blocks", sc1)
    else some (.noOp, sc1)

def handleBlockProcessError (sc : scheduler) (firstPeerID secondPeerID : PeerID) :
    OutEvent × scheduler :=
  let sc1 := sc.removePeer firstPeerID
  let sc2 := if firstPeerID ≠ secondPeerID then sc1.removePeer secondPeerID else sc1
  if sc2.allBlocksProcessed then (.scFinishedEv "error on last block", sc2)
  else (.noOp, sc2)

def handleAddNewPeer (sc : scheduler) (peerID : PeerID) : OutEvent × scheduler :=
  (.noOp, sc.ensurePeer peerID)

def handleRemovePeer (sc : scheduler) (peerID : PeerID) : OutEvent × scheduler :=
  let sc1 := sc.removePeer peerID
  if sc1.allBlocksProcessed then (.scFinishedEv "removed peer", sc1)
  else (.scPeerError peerID "peer was stopped", sc1)

/-- Step 1 of `handleTryPrunePeer`: the head-of-line check.  The Go code
computes `time.Since(timeHeightAsked)`, a wall-clock read, modelled by
`now`; a missing `pendingBlocks` entry yields the Go zero value `""`. -/
def pruneStep1 (sc : scheduler) (now : Time) : scheduler :=
  match alookup sc.pendingTime sc.height with
  | none => sc
  | some t =>
    if sc.peerTimeout < now - t then
      sc.removePeer ((alookup sc.pendingBlocks sc.height).getD [])
    else sc

def handleTryPrunePeer (sc : scheduler) (evTime : Time) (now : Time) : OutEvent × scheduler :=
  let sc1 := sc.pruneStep1 now
  let pruned := sc1.prunablePeers sc1.peerTimeout sc1.minRecvRate evTime
  if pruned.isEmpty then (.noOp, sc1)
  else
    let sc2 := pruned.foldl removePeer sc1
    if sc2.allBlocksProcessed then (.scFinishedEv "after try prune", sc2)
    else (.scPeersPruned pruned, sc2)

/-- `handleResetState` reads `time.Now()` for `lastAdvance` (`now`). -/
def handleResetState (sc : scheduler) (lastBlockHeight initialHeight : Int) (now : Time) :
    OutEvent × scheduler :=
  let initH := if lastBlockHeight + 1 = 1 then initialHeight else lastBlockHeight + 1
  (.noOp, scheduler.addNewBlocks
    { sc with initHeight := initH, height := initH, lastAdvance := now })

/-- `handleTrySchedule`: `time.Since(sc.lastAdvance)` is the wall-clock
read (`now`); `event.time` stamps the pending entry. -/
def handleTrySchedule (sc : scheduler) (evTime : Time) (now : Time) : OutEvent × scheduler :=
  if sc.syncTimeout < now - sc.lastAdvance then (.scFinishedEv "timeout, no advance", sc)
  else
    let nextHeight := sc.nextHeightToSchedule
    if nextHeight = -1 then (.noOp, sc)
    else
      match sc.selectPeer nextHeight with
      | .error e => (.scSchedulerFail e, sc)
      | .ok bestPeerID =>
        match sc.markPending bestPeerID nextHeight evTime with
        | .error e => (.scSchedulerFail e, sc)
        | .ok sc1 => (.scBlockRequest bestPeerID nextHeight, sc1)

def handleStatusResponse (sc : scheduler) (peerID : PeerID) (base height : Int) :
    OutEvent × scheduler :=
  match sc.setPeerRange peerID base height with
  | (sc1, some e) => (.scPeerError peerID e, sc1)
  | (sc1, none) => (.noOp, sc1)

/-- Top-level dispatch; `now` is the wall clock at the moment the handler
runs, used only where the Go handlers call `time.Now()`/`time.Since`. -/
def handle (sc : scheduler) (ev : Event) (now : Time) : Option (OutEvent × scheduler) :=
  match ev with
  | .bcResetState lbh ih => some (sc.handleResetState lbh ih now)
  | .bcStatusResponse id base height => some (sc.handleStatusResponse id base height)
  | .bcBlockResponse id height size t => some (sc.handleBlockResponse id height size t)
  | .bcNoBlockResponse id height => some (sc.handleNoBlockResponse id height)
  | .rTrySchedule t => some (sc.handleTrySchedule t now)
  | .bcAddNewPeer id => some (sc.handleAddNewPeer id)
  | .bcRemovePeer id => some (sc.handleRemovePeer id)
  | .rTryPrunePeer t => some (sc.handleTryPrunePeer t now)
  | .pcBlockProcessed h => sc.handleBlockProcessed h now
  | .pcBlockVerificationFailure a b => some (sc.handleBlockProcessError a b)

end scheduler

/-! ## Runs

A trace pairs each inbound event with the wall-clock instant at which the
driver runs its handler.  A `none` result models the `panic` in
`handleBlockProcessed`: the process dies and no further state is
reachable. -/

def stepEv (o : Option scheduler) (p : Event × Time) : Option scheduler :=
  match o with
  | none => none
  | some sc => (sc.handle p.1 p.2).map Prod.snd

def runTrace (sc : scheduler) (tr : List (Event × Time)) : Option scheduler :=
  tr.foldl stepEv (some sc)

/-- Number of block-table entries of the final state of a run (`0` when
the run panicked). -/
def blockTableSize : Option scheduler → Nat
  | none => 0
  | some sc => sc.blockStates.length

/-- `targetPending` of the final state of a run (`0` when the run
panicked). -/
def targetBound : Option scheduler → Nat
  | none => 0
  | some sc => sc.targetPending

def isResetState : Event → Bool
  | .bcResetState _ _ => true
  | _ => false

def noReset (tr : List (Event × Time)) : Bool :=
  tr.all (fun p => !isResetState p.1)

/-! ## Association-list lemmas -/

theorem alookup_ainsert_self [DecidableEq κ] (m : List (κ × ν)) (k : κ) (v : ν) :
    alookup (ainsert m k v) k = some v := by
  induction m with
  | nil => simp [ainsert, alookup]
  | cons kv rest ih =>
    by_cases h : kv.1 = k
    · simp [ainsert, h, alookup]
    · simp [ainsert, h, alookup, ih]

theorem alookup_ainsert_ne [DecidableEq κ] (m : List (κ × ν)) (k k' : κ) (v : ν)
    (hne : k' ≠ k) : alookup (ainsert m k v) k' = alookup m k' := by
  induction m with
  | nil => simp [ainsert, alookup, Ne.symm hne]
  | cons kv rest ih =>
    by_cases h : kv.1 = k
    · simp [ainsert, h, alookup, hne, Ne.symm hne]
    · by_cases h' : kv.1 = k'
      · simp [ainsert, h, alookup, h', hne]
      · simp [ainsert, h, alookup, h', ih]

theorem alookup_aerase_self [DecidableEq κ] (m : List (κ × ν)) (k : κ) :
    alookup (aerase m k) k = none := by
  induction m with
  | nil => simp [aerase, alookup]
  | cons kv rest ih =>
    by_cases h : kv.1 = k
    · simpa [aerase, h] using ih
    · simpa [aerase, h, alookup] using ih

theorem mem_of_alookup_eq_some [DecidableEq κ] {m : List (κ × ν)} {k : κ} {v : ν}
    (h : alookup m k = some v) : (k, v) ∈ m := by
  induction m with
  | nil => simp [alookup] at h
  | cons kv rest ih =>
    by_cases hk : kv.1 = k
    · rw [alookup, if_pos hk] at h
      cases h
      exact List.mem_cons.mpr (Or.inl (by rw [← hk]))
    · rw [alookup, if_neg hk] at h
      exact List.mem_cons_of_mem _ (ih h)

namespace scheduler

theorem removePeer_absent (sc : scheduler) (id : PeerID)
    (h : alookup sc.peers id = none) : sc.removePeer id = sc := by
  simp [removePeer, h]

theorem removePeer_removed (sc : scheduler) (id : PeerID) (p : scPeer)
    (h : alookup sc.peers id = some p) (hst : p.state = .Removed) :
    sc.removePeer id = sc := by
  simp [removePeer, h, hst]

theorem ensurePeer_present (sc : scheduler) (id : PeerID) (p : scPeer)
    (h : alookup sc.peers id = some p) : sc.ensurePeer id = sc := by
  simp [ensurePeer, h]

end scheduler

/-! ## Claim C7 -/

/-- C7 (corrected): a `removePeer` event for an unknown peer id, or for a
peer already `Removed`, leaves the scheduler state unchanged; but the
handler does not emit `noOp`: it emits `finished("removed peer")` when
`allBlocksProcessed()` holds and `peerError(id, "peer was stopped")`
otherwise. -/
theorem C7_removePeer_duplicate_ignored (sc : scheduler) (id : PeerID)
    (h : alookup sc.peers id = none ∨
      ∃ p, alookup sc.peers id = some p ∧ p.state = .Removed) :
    sc.handleRemovePeer id =
      ((if sc.allBlocksProcessed then .scFinishedEv "removed peer"
        else .scPeerError id "peer was stopped"), sc) := by
  have hrm : sc.removePeer id = sc := by
    rcases h with h | ⟨p, hp, hst⟩
    · exact sc.removePeer_absent id h
    · exact sc.removePeer_removed id p hp hst
  simp only [scheduler.handleRemovePeer, hrm]
  by_cases hall : sc.allBlocksProcessed <;> simp [hall]

/-- C7 counterexample: on a fresh scheduler (peer id `[97]` unknown,
`allBlocksProcessed` false) the handler emits
`peerError([97], "peer was stopped")`, not the `noOp` the claim
requires; the state is unchanged. -/
theorem C7_counterexample :
    alookup (newScheduler 1 0).peers [97] = none ∧
    ((newScheduler 1 0).handleRemovePeer [97]).1 ≠ OutEvent.noOp ∧
    ((newScheduler 1 0).handleRemovePeer [97]).1 =
      OutEvent.scPeerError [97] "peer was stopped" ∧
    ((newScheduler 1 0).handleRemovePeer [97]).2 = newScheduler 1 0 := by
  refine ⟨rfl, ?_, rfl, rfl⟩
  decide

/-- C7 witness: the amended theorem applied to the fresh scheduler. -/
theorem C7_witness :
    (alookup (newScheduler 1 0).peers [98] = none ∨
      ∃ p, alookup (newScheduler 1 0).peers [98] = some p ∧ p.state = .Removed) ∧
    (newScheduler 1 0).handleRemovePeer [98] =
      ((if (newScheduler 1 0).allBlocksProcessed then .scFinishedEv "removed peer"
        else .scPeerError [98] "peer was stopped"), newScheduler 1 0) :=
  ⟨Or.inl rfl, C7_removePeer_duplicate_ignored (newScheduler 1 0) [98] (Or.inl rfl)⟩

/-! ## Claim C8 -/

/-- C8 (corrected, amended): once a peer id is `Removed` it can never be
re-registered: `addNewPeer` finds the existing `Removed` entry and leaves
the state unchanged, and a subsequent `statusResponse` for it is a no-op
emitting `noOp`, leaving the peer `Removed` with its old window. -/
theorem C8_removed_peer_not_revived (sc : scheduler) (id : PeerID) (p : scPeer)
    (base height : Int)
    (hlk : alookup sc.peers id = some p) (hst : p.state = .Removed) :
    sc.handleAddNewPeer id = (.noOp, sc) ∧
    sc.handleStatusResponse id base height = (.noOp, sc) := by
  have hens : sc.ensurePeer id = sc := sc.ensurePeer_present id p hlk
  constructor
  · simp [scheduler.handleAddNewPeer, hens]
  · simp [scheduler.handleStatusResponse, scheduler.setPeerRange, hens, hlk, hst]

def c8sc0 : scheduler := newScheduler 1 0
def c8sc1 : scheduler := (c8sc0.handleAddNewPeer [97]).2
def c8sc2 : scheduler := (c8sc1.handleStatusResponse [97] 1 5).2
def c8sc3 : scheduler := (c8sc2.handleRemovePeer [97]).2
def c8sc4 : scheduler := (c8sc3.handleAddNewPeer [97]).2

/-- C8 counterexample: peer `[97]` is registered (`Ready`, window
`[1, 5]`), removed, then `addNewPeer` and a valid `statusResponse` with
the same window (`base 1 ≤ height 5`, height not lowered) are replayed.
The claim requires the final peer state to be `Ready`; it is `Removed`,
and the status response is silently dropped with `noOp`. -/
theorem C8_counterexample :
    (alookup c8sc2.peers [97]).map scPeer.state = some peerState.Ready ∧
    (alookup c8sc3.peers [97]).map scPeer.state = some peerState.Removed ∧
    (c8sc4.handleStatusResponse [97] 1 5).1 = OutEvent.noOp ∧
    (alookup (c8sc4.handleStatusResponse [97] 1 5).2.peers [97]).map scPeer.state =
      some peerState.Removed := by
  refine ⟨rfl, rfl, rfl, rfl⟩

/-- C8 witness: the amended theorem applied to the state in which peer
`[97]` has just been removed and re-added. -/
theorem C8_witness :
    (alookup c8sc4.peers [97] =
      some { peerID := [97], state := .Removed, base := 1, height := 5,
             lastTouched := 0, lastRate := 0 }) ∧
    c8sc4.handleStatusResponse [97] 1 5 = (.noOp, c8sc4) :=
  ⟨rfl, (C8_removed_peer_not_revived c8sc4 [97] _ 1 5 rfl rfl).2⟩

/-! ## Claim C9 -/

/-- C9 (confirmed): whenever `markReceived` reaches the `lastRate`
division (i.e. succeeds), the pending timestamp exists and the elapsed
nanoseconds `now - t` are at least `1`, so the recorded rate
`size / (now - t)` never divides by zero. -/
theorem C9_markReceived_divisor_pos (sc : scheduler) (id : PeerID)
    (height size : Int) (now : Time) (sc' : scheduler)
    (hok : sc.markReceived id height size now = .ok sc') :
    ∃ t, alookup sc.pendingTime height = some t ∧ 1 ≤ now - t ∧
      ∃ p, alookup sc.peers id = some p ∧
        alookup sc'.peers id = some { p with lastRate := Int.tdiv size (now - t) } := by
  unfold scheduler.markReceived at hok
  split at hok
  · exact absurd hok (by simp)
  · split at hok
    · exact absurd hok (by simp)
    · rename_i t hT
      split at hok
      · exact absurd hok (by simp)
      · rename_i hpos
        split at hok
        · exact absurd hok (by simp)
        · rename_i p hp
          have h1 : 1 ≤ now - t := by
            simpa using Int.add_one_le_iff.mpr (Int.not_le.mp hpos)
          refine ⟨t, hT, h1, p, hp, ?_⟩
          cases hok
          exact alookup_ainsert_self _ _ _

def c9sc : scheduler :=
  { newScheduler 1 0 with
    peers := [([97], { peerID := [97], state := .Ready, base := 1, height := 5,
                        lastTouched := 0, lastRate := 0 })]
    blockStates := [(1, .Pending)]
    pendingBlocks := [(1, [97])]
    pendingTime := [(1, 100)] }

def c9post : scheduler := ((c9sc.markReceived [97] 1 10 200).toOption).getD (newScheduler 1 0)

/-- C9 witness: a successful receipt 100 ns after the request. -/
theorem C9_witness :
    c9sc.markReceived [97] 1 10 200 = .ok c9post ∧
    (∃ t, alookup c9sc.pendingTime 1 = some t ∧ 1 ≤ (200 : Time) - t ∧
      ∃ p, alookup c9sc.peers [97] = some p ∧
        alookup c9post.peers [97] = some { p with lastRate := Int.tdiv 10 (200 - t) }) :=
  ⟨rfl, C9_markReceived_divisor_pos c9sc [97] 1 10 200 c9post rfl⟩

/-! ## Claim C2 -/

/-- C2 (corrected, amended): the handlers for `statusResponse`,
`blockResponse`, `noBlockResponse`, `addNewPeer`, `removePeer` and
`blockVerificationFailure` are deterministic functions of the pre-state
and the event alone — re-running them at a different wall-clock instant
changes nothing.  (The remaining handlers — `resetState`,
`blockProcessed`, `trySchedule`, `tryPrunePeer` — read the wall clock
via `time.Now()`/`time.Since` and are excluded; see the
counterexample.) -/
theorem C2_clock_free_handlers_deterministic (sc : scheduler)
    (id a b : PeerID) (base height size : Int) (t : Time) (now₁ now₂ : Time) :
    sc.handle (.bcStatusResponse id base height) now₁ =
      sc.handle (.bcStatusResponse id base height) now₂ ∧
    sc.handle (.bcBlockResponse id height size t) now₁ =
      sc.handle (.bcBlockResponse id height size t) now₂ ∧
    sc.handle (.bcNoBlockResponse id height) now₁ =
      sc.handle (.bcNoBlockResponse id height) now₂ ∧
    sc.handle (.bcAddNewPeer id) now₁ = sc.handle (.bcAddNewPeer id) now₂ ∧
    sc.handle (.bcRemovePeer id) now₁ = sc.handle (.bcRemovePeer id) now₂ ∧
    sc.handle (.pcBlockVerificationFailure a b) now₁ =
      sc.handle (.pcBlockVerificationFailure a b) now₂ :=
  ⟨rfl, rfl, rfl, rfl, rfl, rfl⟩

def c2sc : scheduler :=
  { newScheduler 1 0 with
    peers := [([97], { peerID := [97], state := .Ready, base := 1, height := 5,
                        lastTouched := 0, lastRate := 0 })]
    blockStates := [(1, .Pending)]
    pendingBlocks := [(1, [97])]
    pendingTime := [(1, 0)] }

/-- C2 counterexample: `handleTryPrunePeer` (hence `handle` on a
`tryPrunePeer` event) is not a function of the pre-state and the event
alone.  From the same state `c2sc` and event `tryPrunePeer(time = 20 s)`,
run at wall clock `1 ns` it emits `finished("after try prune")`, while
run at wall clock `16 s` the head-of-line check (`time.Since` inside the
handler) removes the pending peer first and it emits `noOp`. -/
theorem C2_counterexample :
    c2sc.handle (.rTryPrunePeer 20000000000) 1 ≠
      c2sc.handle (.rTryPrunePeer 20000000000) 16000000000 ∧
    (c2sc.handleTryPrunePeer 20000000000 1).1 = OutEvent.scFinishedEv "after try prune" ∧
    (c2sc.handleTryPrunePeer 20000000000 16000000000).1 = OutEvent.noOp := by
  refine ⟨?_, rfl, rfl⟩
  decide

/-! ## Claim C3 -/

/-- C3 (corrected, amended): after step 1 (the head-of-line removal), if
the prunable-peer list computed from the event time is empty the handler
returns `noOp` immediately — even when `allBlocksProcessed()` already
holds; otherwise it removes every prunable peer and emits
`finished("after try prune")` exactly when `allBlocksProcessed()` holds
in the resulting state, and `peersPruned` with the pruned ids when it
does not. -/
theorem C3_tryPrune_finish_only_after_prune (sc : scheduler) (evTime now : Time) :
    ((sc.pruneStep1 now |>.prunablePeers (sc.pruneStep1 now).peerTimeout
        (sc.pruneStep1 now).minRecvRate evTime) = [] →
      sc.handleTryPrunePeer evTime now = (.noOp, sc.pruneStep1 now)) ∧
    (∀ pruned, pruned = (sc.pruneStep1 now |>.prunablePeers (sc.pruneStep1 now).peerTimeout
        (sc.pruneStep1 now).minRecvRate evTime) → pruned ≠ [] →
      sc.handleTryPrunePeer evTime now =
        ((if (pruned.foldl scheduler.removePeer (sc.pruneStep1 now)).allBlocksProcessed
          then .scFinishedEv "after try prune"
          else .scPeersPruned pruned),
         pruned.foldl scheduler.removePeer (sc.pruneStep1 now))) := by
  constructor
  · intro hempty
    simp [scheduler.handleTryPrunePeer, hempty]
  · intro pruned hdef hne
    subst hdef
    rw [scheduler.handleTryPrunePeer]
    rw [if_neg (by simpa [List.isEmpty_iff] using hne)]
    by_cases hc : (((sc.pruneStep1 now).prunablePeers (sc.pruneStep1 now).peerTimeout
        (sc.pruneStep1 now).minRecvRate evTime).foldl scheduler.removePeer
        (sc.pruneStep1 now)).allBlocksProcessed <;>
      simp [hc]

/-- C3 counterexample: state `c2sc` (one Ready peer holding the pending
request for the cursor), event time `1`, wall clock `16 s`.  Step 1
removes the peer (its `pendingSince = 0` is more than `peerTimeout` old),
after which `allBlocksProcessed()` holds — yet the handler emits `noOp`,
not `finished("after try prune")`, because the prunable list is empty. -/
theorem C3_counterexample :
    alookup c2sc.pendingTime c2sc.height = some 0 ∧
    c2sc.peerTimeout < (16000000000 : Time) - 0 ∧
    (c2sc.handleTryPrunePeer 1 16000000000).2.allBlocksProcessed = true ∧
    (c2sc.handleTryPrunePeer 1 16000000000).1 = OutEvent.noOp ∧
    (c2sc.handleTryPrunePeer 1 16000000000).1 ≠ OutEvent.scFinishedEv "after try prune" := by
  refine ⟨rfl, by decide, rfl, rfl, ?_⟩
  decide

/-- C3 witness: the amended theorem applied to `c2sc` with event time `1`
and wall clock `16 s`, where the prunable list is empty. -/
theorem C3_witness :
    (c2sc.pruneStep1 16000000000 |>.prunablePeers
        (c2sc.pruneStep1 16000000000).peerTimeout
        (c2sc.pruneStep1 16000000000).minRecvRate 1) = [] ∧
    c2sc.handleTryPrunePeer 1 16000000000 = (.noOp, c2sc.pruneStep1 16000000000) :=
  ⟨rfl, (C3_tryPrune_finish_only_after_prune c2sc 1 16000000000).1 rfl⟩

/-! ## Sort membership and helper lemmas -/

theorem mem_insertSorted (x y : PeerID) (l : List PeerID) :
    x ∈ insertSorted y l ↔ x = y ∨ x ∈ l := by
  induction l with
  | nil => simp [insertSorted]
  | cons z zs ih =>
    by_cases h : idLt y z
    · simp [insertSorted, h]
    · simp only [insertSorted, h, if_false, Bool.false_eq_true, List.mem_cons, ih]
      tauto

theorem mem_sortByID (x : PeerID) (l : List PeerID) : x ∈ sortByID l ↔ x ∈ l := by
  induction l with
  | nil => simp [sortByID]
  | cons z zs ih => simp [sortByID, mem_insertSorted, ih]

namespace scheduler

theorem addNewBlocks_height (sc : scheduler) : (sc.addNewBlocks).height = sc.height := by
  unfold addNewBlocks
  split <;> rfl

theorem addNewBlocks_peers (sc : scheduler) : (sc.addNewBlocks).peers = sc.peers := by
  unfold addNewBlocks
  split <;> rfl

theorem addNewBlocks_pendingBlocks (sc : scheduler) :
    (sc.addNewBlocks).pendingBlocks = sc.pendingBlocks := by
  unfold addNewBlocks
  split <;> rfl

theorem addNewBlocks_pendingTime (sc : scheduler) :
    (sc.addNewBlocks).pendingTime = sc.pendingTime := by
  unfold addNewBlocks
  split <;> rfl

theorem addNewBlocks_receivedBlocks (sc : scheduler) :
    (sc.addNewBlocks).receivedBlocks = sc.receivedBlocks := by
  unfold addNewBlocks
  split <;> rfl

theorem addNewBlocks_targetPending (sc : scheduler) :
    (sc.addNewBlocks).targetPending = sc.targetPending := by
  unfold addNewBlocks
  split <;> rfl

theorem alookup_addNewLoop_lt (cursor maxH : Int) (fuel : Nat) (i : Int)
    (bs : List (Int × blockState)) (h : Int) (hlt : h < i) :
    alookup (addNewLoop cursor maxH fuel i bs) h = alookup bs h := by
  induction fuel generalizing i bs with
  | zero => rfl
  | succ n ih =>
    rw [addNewLoop]
    split
    · rfl
    · rw [ih (i + 1) _ (by omega)]
      by_cases hu : (if i < cursor then blockState.Processed
          else (alookup bs i).getD .Unknown) = .Unknown
      · rw [if_pos hu]
        exact alookup_ainsert_ne bs i h .New (by omega)
      · rw [if_neg hu]

/-- `removePeer` marks an existing, not-yet-removed peer `Removed`. -/
theorem removePeer_marks_removed (sc : scheduler) (id : PeerID) (p : scPeer)
    (hlk : alookup sc.peers id = some p) (hne : p.state ≠ .Removed) :
    (alookup (sc.removePeer id).peers id).map scPeer.state = some peerState.Removed := by
  simp only [removePeer, hlk, if_neg hne]
  simp [alookup_ainsert_self]

/-- `removePeer` never writes any peer's `lastTouched`. -/
theorem removePeer_lastTouched (sc : scheduler) (id id' : PeerID) :
    (alookup (sc.removePeer id).peers id').map scPeer.lastTouched =
      (alookup sc.peers id').map scPeer.lastTouched := by
  unfold removePeer
  cases hlk : alookup sc.peers id with
  | none => rfl
  | some p =>
    by_cases hst : p.state = .Removed
    · simp [hst]
    · simp only [hst, if_neg, if_false]
      by_cases hid : id' = id
      · subst hid
        simp [alookup_ainsert_self, hlk]
      · simp [alookup_ainsert_ne _ _ _ _ hid]

/-- A successful `markReceived` and its exact effect, under the guards. -/
theorem markReceived_ok (sc : scheduler) (id : PeerID) (height size : Int)
    (now ts : Time) (p : scPeer)
    (hstate : sc.getStateAtHeight height = .Pending)
    (hpb : alookup sc.pendingBlocks height = some id)
    (hpt : alookup sc.pendingTime height = some ts)
    (hpos : 0 < now - ts)
    (hp : alookup sc.peers id = some p) :
    sc.markReceived id height size now = .ok { sc with
      peers := ainsert sc.peers id { p with lastRate := Int.tdiv size (now - ts) }
      blockStates := ainsert sc.blockStates height .Received
      pendingBlocks := aerase sc.pendingBlocks height
      pendingTime := aerase sc.pendingTime height
      receivedBlocks := ainsert sc.receivedBlocks height id } := by
  rw [scheduler.markReceived, if_neg (by simp [hstate, hpb])]
  simp only [hpt, hp, if_neg (Int.not_le.mpr hpos)]

/-- A failing `markReceived`: any of the claim's three failure conditions
yields an error (and, inside `handleBlockResponse`, peer removal). -/
theorem markReceived_error (sc : scheduler) (id : PeerID) (height size : Int) (now : Time)
    (hcond : sc.getStateAtHeight height ≠ .Pending ∨
      alookup sc.pendingBlocks height ≠ some id ∨
      (∀ ts, alookup sc.pendingTime height = some ts → now - ts ≤ 0)) :
    ∃ e, sc.markReceived id height size now = .error e := by
  rw [scheduler.markReceived]
  by_cases h1 : sc.getStateAtHeight height ≠ .Pending ∨
      alookup sc.pendingBlocks height ≠ some id
  · rw [if_pos h1]
    exact ⟨_, rfl⟩
  · rw [if_neg h1]
    push_neg at h1
    rcases hcond with hc | hc | hc
    · exact absurd h1.1 (by simp [hc])
    · exact absurd h1.2 (by simp [hc])
    · cases hpt : alookup sc.pendingTime height with
      | none => exact ⟨_, rfl⟩
      | some ts =>
        refine ⟨"clock error", ?_⟩
        simp [hc ts hpt]

end scheduler

/-! ## Claim C1 -/

/-- C1 (corrected, amended): for a `blockResponse` from a known `Ready`
peer: if the height is not `Pending` with exactly this peer recorded, or
the event time is not strictly after the recorded `pendingSince`, the
peer is removed (with `removePeer`'s usual demotions, which may change the
block state at that very height) and `peerError` is emitted; otherwise the
block becomes `Received` with `receivedPeer` the responding peer, the
`pendingBlocks` and `pendingTime` entries for the height are deleted, the
peer's `lastRate` becomes `size / elapsed-ns`, and `blockReceived` is
emitted. -/
theorem C1_blockResponse_characterization (sc : scheduler) (id : PeerID) (p : scPeer)
    (height size : Int) (t : Time)
    (hlk : alookup sc.peers id = some p) (hready : p.state = .Ready) :
    ((sc.getStateAtHeight height ≠ .Pending ∨
        alookup sc.pendingBlocks height ≠ some id ∨
        (∀ ts, alookup sc.pendingTime height = some ts → t - ts ≤ 0)) →
      (∃ e, (sc.handleBlockResponse id height size t).1 = .scPeerError id e) ∧
      (alookup (sc.handleBlockResponse id height size t).2.peers id).map scPeer.state =
        some peerState.Removed) ∧
    (∀ ts, sc.getStateAtHeight height = .Pending →
      alookup sc.pendingBlocks height = some id →
      alookup sc.pendingTime height = some ts → 0 < t - ts →
      (sc.handleBlockResponse id height size t).1 = .scBlockReceived id height ∧
      (sc.handleBlockResponse id height size t).2.getStateAtHeight height = .Received ∧
      alookup (sc.handleBlockResponse id height size t).2.receivedBlocks height = some id ∧
      alookup (sc.handleBlockResponse id height size t).2.pendingBlocks height = none ∧
      alookup (sc.handleBlockResponse id height size t).2.pendingTime height = none ∧
      (alookup (sc.handleBlockResponse id height size t).2.peers id).map scPeer.lastRate =
        some (Int.tdiv size (t - ts))) := by
  have htouch : sc.touchPeer id t =
      .ok { sc with peers := ainsert sc.peers id { p with lastTouched := t } } := by
    simp [scheduler.touchPeer, hlk, hready]
  set sct : scheduler := { sc with peers := ainsert sc.peers id { p with lastTouched := t } }
    with hsct
  have hlkt : alookup sct.peers id = some { p with lastTouched := t } :=
    alookup_ainsert_self _ _ _
  constructor
  · intro hcond
    obtain ⟨e, herr⟩ := sct.markReceived_error id height size t (by exact hcond)
    simp only [scheduler.handleBlockResponse, htouch, herr]
    refine ⟨⟨e, rfl⟩, ?_⟩
    exact sct.removePeer_marks_removed id _ hlkt (by simp [hready])
  · intro ts hstate hpb hpt hpos
    have hok := sct.markReceived_ok id height size t ts { p with lastTouched := t }
      (by exact hstate) (by exact hpb) (by exact hpt) hpos hlkt
    simp only [scheduler.handleBlockResponse, htouch, hok]
    have hnlt : ¬ height < sc.height := by
      intro hlt
      rw [scheduler.getStateAtHeight, if_pos hlt] at hstate
      cases hstate
    refine ⟨trivial, ?_, ?_, ?_, ?_, ?_⟩
    · rw [scheduler.getStateAtHeight]
      simp only []
      rw [if_neg (by exact hnlt), alookup_ainsert_self]
      rfl
    · exact alookup_ainsert_self _ _ _
    · exact alookup_aerase_self _ _
    · exact alookup_aerase_self _ _
    · rw [alookup_ainsert_self]
      rfl

def c1post : scheduler := (c9sc.handleBlockResponse [97] 1 10 200).2

/-- C1 witness: the amended theorem's success branch on a concrete
receipt 100 ns after the request. -/
theorem C1_witness :
    alookup c9sc.peers [97] =
      some { peerID := [97], state := .Ready, base := 1, height := 5,
             lastTouched := 0, lastRate := 0 } ∧
    (c9sc.handleBlockResponse [97] 1 10 200).1 = OutEvent.scBlockReceived [97] 1 ∧
    c1post.getStateAtHeight 1 = .Received ∧
    alookup c1post.receivedBlocks 1 = some [97] ∧
    alookup c1post.pendingBlocks 1 = none ∧
    alookup c1post.pendingTime 1 = none ∧
    (alookup c1post.peers [97]).map scPeer.lastRate = some (Int.tdiv 10 (200 - 100)) :=
  have h := (C1_blockResponse_characterization c9sc [97]
    { peerID := [97], state := .Ready, base := 1, height := 5,
      lastTouched := 0, lastRate := 0 } 1 10 200 rfl rfl).2 100 rfl rfl rfl (by decide)
  ⟨rfl, h.1, h.2.1, h.2.2.1, h.2.2.2.1, h.2.2.2.2.1, h.2.2.2.2.2⟩

/-- C1 counterexample: peer `[97]` is known and `Ready`, height `1` is
`Pending` under `[97]` with `pendingSince = 100`, and the response
arrives with event time `100` (not strictly after).  The claim says the
peer is removed, `peerError` is emitted, and the state is otherwise
unchanged at that height — but the block state at height `1` changes from
`Pending` to `Unknown` (the removal demotes it to `New` and the table
truncation then deletes it). -/
theorem C1_counterexample :
    (alookup c9sc.peers [97]).map scPeer.state = some peerState.Ready ∧
    c9sc.getStateAtHeight 1 = .Pending ∧
    alookup c9sc.pendingBlocks 1 = some [97] ∧
    alookup c9sc.pendingTime 1 = some 100 ∧
    (c9sc.handleBlockResponse [97] 1 10 100).1 = OutEvent.scPeerError [97] "clock error" ∧
    (c9sc.handleBlockResponse [97] 1 10 100).2.getStateAtHeight 1 ≠
      c9sc.getStateAtHeight 1 := by
  refine ⟨rfl, rfl, rfl, rfl, rfl, ?_⟩
  decide

/-! ## Claim C6 -/

/-- C6 (confirmed): `handleBlockProcessed` panics (modelled `none`)
exactly when the height differs from the cursor; on a match the cursor
advances to `height + 1`, the height's entries disappear from the
pending, pending-time, received and block-state tables, `New` blocks are
refilled (`markProcessed` calls `addNewBlocks`), and the handler emits
`finished("processed all blocks")` precisely when `allBlocksProcessed()`
holds afterwards, `noOp` otherwise. -/
theorem C6_blockProcessed_characterization (sc : scheduler) (height : Int) (now : Time) :
    (sc.handleBlockProcessed height now = none ↔ height ≠ sc.height) ∧
    (height = sc.height →
      sc.handleBlockProcessed height now =
        some ((if (sc.markProcessed height now).allBlocksProcessed
          then .scFinishedEv "processed all blocks" else .noOp),
          sc.markProcessed height now) ∧
      (sc.markProcessed height now).height = height + 1 ∧
      alookup (sc.markProcessed height now).pendingBlocks height = none ∧
      alookup (sc.markProcessed height now).pendingTime height = none ∧
      alookup (sc.markProcessed height now).receivedBlocks height = none ∧
      alookup (sc.markProcessed height now).blockStates height = none ∧
      (sc.markProcessed height now).getStateAtHeight height = .Processed) := by
  constructor
  · rw [scheduler.handleBlockProcessed]
    by_cases hc : height = sc.height
    · rw [if_neg (by simp [hc])]
      constructor
      · intro hnone
        by_cases hall : (sc.markProcessed height now).allBlocksProcessed <;>
          simp [hall] at hnone
      · intro hne
        exact absurd hc hne
    · rw [if_pos hc]
      simp [hc]
  · intro hc
    refine ⟨?_, ?_, ?_, ?_, ?_, ?_, ?_⟩
    · rw [scheduler.handleBlockProcessed, if_neg (by simp [hc])]
      split <;> simp_all
    · rw [scheduler.markProcessed, scheduler.addNewBlocks]
      split <;> rfl
    · rw [scheduler.markProcessed]
      rw [scheduler.addNewBlocks_pendingBlocks]
      exact alookup_aerase_self _ _
    · rw [scheduler.markProcessed]
      rw [scheduler.addNewBlocks_pendingTime]
      exact alookup_aerase_self _ _
    · rw [scheduler.markProcessed]
      rw [scheduler.addNewBlocks_receivedBlocks]
      exact alookup_aerase_self _ _
    · rw [scheduler.markProcessed, scheduler.addNewBlocks]
      split
      · exact alookup_aerase_self _ _
      · simp only []
        rw [scheduler.alookup_addNewLoop_lt _ _ _ _ _ _ (by omega)]
        exact alookup_aerase_self _ _
    · rw [scheduler.getStateAtHeight]
      rw [scheduler.markProcessed, scheduler.addNewBlocks]
      split <;> { rw [if_pos (by simp only []; omega)] }

/-- C6 witness: processing the cursor block of `c9sc` (cursor `1`). -/
theorem C6_witness :
    (1 : Int) = c9sc.height ∧
    c9sc.handleBlockProcessed 1 0 =
      some ((if (c9sc.markProcessed 1 0).allBlocksProcessed
        then .scFinishedEv "processed all blocks" else .noOp), c9sc.markProcessed 1 0) ∧
    (c9sc.markProcessed 1 0).height = 2 ∧
    alookup (c9sc.markProcessed 1 0).blockStates 1 = none :=
  have h := (C6_blockProcessed_characterization c9sc 1 0).2 rfl
  ⟨rfl, h.1, h.2.1, h.2.2.2.2.2.1⟩

/-! ## Claim C10 -/

theorem ensurePeer_lookup (sc : scheduler) (id : PeerID) :
    alookup (sc.ensurePeer id).peers id =
      some ((alookup sc.peers id).getD (newScPeer id)) := by
  unfold scheduler.ensurePeer
  cases h : alookup sc.peers id with
  | some p => simp [h]
  | none => simp [h, alookup_ainsert_self]

/-- C10 (confirmed): `setPeerRange` never writes any peer's `lastTouched`
(beyond `ensurePeer` creating a fresh entry with the zero value); only
`touchPeer` writes it.  Consequently a peer made `Ready` by a status
response while its `lastTouched` is still the zero time is contained in
`prunablePeers(peerTimeout, minRecvRate, now)` for every `now` more than
`peerTimeout` after the zero time. -/
theorem C10_setPeerRange_lastTouched_frame (sc : scheduler) (id : PeerID) (base height : Int) :
    (∀ id', (alookup (sc.setPeerRange id base height).1.peers id').map scPeer.lastTouched =
      (alookup (sc.ensurePeer id).peers id').map scPeer.lastTouched) ∧
    (∀ t sc', sc.touchPeer id t = .ok sc' →
      (alookup sc'.peers id).map scPeer.lastTouched = some t) ∧
    (∀ p, alookup (sc.ensurePeer id).peers id = some p → p.lastTouched = 0 →
      p.state ≠ .Removed → (sc.setPeerRange id base height).2 = none →
      ∀ pt mrr now, pt < now →
        id ∈ (sc.setPeerRange id base height).1.prunablePeers pt mrr now) := by
  refine ⟨?_, ?_, ?_⟩
  · intro id'
    simp only [scheduler.setPeerRange, ensurePeer_lookup]
    split
    · rfl
    · split
      · exact scheduler.removePeer_lastTouched _ _ _
      · split
        · exact scheduler.removePeer_lastTouched _ _ _
        · rw [scheduler.addNewBlocks_peers]
          by_cases hid : id' = id
          · subst hid
            rw [alookup_ainsert_self, ensurePeer_lookup]
            rfl
          · rw [alookup_ainsert_ne _ _ _ _ hid]
  · intro t sc' hok
    unfold scheduler.touchPeer at hok
    cases hlk : alookup sc.peers id with
    | none => simp [hlk] at hok
    | some p =>
      simp only [hlk] at hok
      split at hok
      · cases hok
      · cases hok
        simp [alookup_ainsert_self]
  · intro p hp h0 hrm hnone pt mrr now hlt
    simp only [scheduler.setPeerRange, hp] at hnone ⊢
    rw [if_neg hrm] at hnone ⊢
    by_cases h2 : height < p.height
    · rw [if_pos h2] at hnone
      cases hnone
    · rw [if_neg h2] at hnone ⊢
      by_cases h3 : height < base
      · rw [if_pos h3] at hnone
        cases hnone
      · rw [if_neg h3] at hnone ⊢
        rw [scheduler.prunablePeers, mem_sortByID, scheduler.addNewBlocks_peers]
        set rp : scPeer :=
          { p with base := base, height := height, state := peerState.Ready } with hrp
        refine List.mem_map.mpr ⟨(id, rp), List.mem_filter.mpr ⟨?_, ?_⟩, rfl⟩
        · exact mem_of_alookup_eq_some (alookup_ainsert_self _ _ _)
        · simp [hrp, h0, hlt]

def c10sc : scheduler := (newScheduler 1 0).ensurePeer [97]

/-- C10 witness: peer `[97]` just added (`New`, `lastTouched = 0`); the
status response `(base 1, height 5)` makes it Ready and it is prunable at
`now = 16 s` with `peerTimeout = 15 s`. -/
theorem C10_witness :
    alookup (c10sc.ensurePeer [97]).peers [97] = some (newScPeer [97]) ∧
    (newScPeer [97]).lastTouched = 0 ∧
    (c10sc.setPeerRange [97] 1 5).2 = none ∧
    [97] ∈ (c10sc.setPeerRange [97] 1 5).1.prunablePeers 15000000000 0 16000000000 :=
  ⟨rfl, rfl, rfl,
    (C10_setPeerRange_lastTouched_frame c10sc [97] 1 5).2.2 (newScPeer [97]) rfl rfl
      (by decide) rfl 15000000000 0 16000000000 (by decide)⟩

/-! ## Claim C4 -/

theorem idLt_irrefl (a : PeerID) : idLt a a = false := by
  induction a with
  | nil => rfl
  | cons x xs ih => simp [idLt, ih]

theorem idLt_trans (a : PeerID) : ∀ b c, idLt a b = true → idLt b c = true →
    idLt a c = true := by
  induction a with
  | nil =>
    intro b c hab hbc
    cases b with
    | nil => simp [idLt] at hab
    | cons y ys =>
      cases c with
      | nil => simp [idLt] at hbc
      | cons z zs => simp [idLt]
  | cons x xs ih =>
    intro b c hab hbc
    cases b with
    | nil => simp [idLt] at hab
    | cons y ys =>
      cases c with
      | nil => simp [idLt] at hbc
      | cons z zs =>
        simp only [idLt] at hab hbc ⊢
        by_cases hxy : x < y
        · by_cases hyz : y < z
          · simp [Nat.lt_trans hxy hyz]
          · by_cases hzy : z < y
            · simp [hyz, hzy] at hbc
            · have hyzeq : y = z := Nat.le_antisymm (Nat.not_lt.mp hzy) (Nat.not_lt.mp hyz)
              subst hyzeq
              simp [hxy]
        · by_cases hyx : y < x
          · simp [hxy, hyx] at hab
          · have hxyeq : x = y := Nat.le_antisymm (Nat.not_lt.mp hyx) (Nat.not_lt.mp hxy)
            subst hxyeq
            rw [if_neg hxy, if_neg hyx] at hab
            by_cases hxz : x < z
            · simp [hxz]
            · by_cases hzx : z < x
              · rw [if_neg hxz, if_pos hzx] at hbc
                cases hbc
              · rw [if_neg hxz, if_neg hzx] at hbc ⊢
                exact ih ys zs hab hbc

/-- The head of the sorted list is least: no element of the input list is
strictly below it. -/
theorem sortByID_head_min (l : List PeerID) :
    ∀ m rest, sortByID l = m :: rest → ∀ x ∈ l, idLt x m = false := by
  induction l with
  | nil => intro m rest h; cases h
  | cons a l ih =>
    intro m rest hsort x hx
    rw [sortByID] at hsort
    cases hs : sortByID l with
    | nil =>
      rw [hs] at hsort
      simp only [insertSorted] at hsort
      cases hsort
      rcases List.mem_cons.mp hx with rfl | hxl
      · exact idLt_irrefl x
      · have := (mem_sortByID x l).mpr hxl
        rw [hs] at this
        cases this
    | cons b bs =>
      rw [hs] at hsort
      simp only [insertSorted] at hsort
      by_cases hab : idLt a b
      · rw [if_pos hab] at hsort
        injection hsort with h1 h2
        rcases List.mem_cons.mp hx with rfl | hxl
        · rw [← h1]
          exact idLt_irrefl x
        · rw [← h1]
          have hxb : idLt x b = false := ih b bs hs x hxl
          by_cases hxa : idLt x a
          · exact absurd (idLt_trans x a b hxa hab) (by simp [hxb])
          · simpa using hxa
      · rw [if_neg hab] at hsort
        injection hsort with h1 h2
        rcases List.mem_cons.mp hx with rfl | hxl
        · rw [← h1]
          simpa using hab
        · rw [← h1]
          exact ih b bs hs x hxl

theorem natMinFold_spec (l : List Nat) : ∀ s : Nat,
    (natMinFold l s = s ∨ natMinFold l s ∈ l) ∧ natMinFold l s ≤ s ∧
    ∀ c ∈ l, natMinFold l s ≤ c := by
  induction l with
  | nil => intro s; simp [natMinFold]
  | cons a l ih =>
    intro s
    have hstep : natMinFold (a :: l) s = natMinFold l (if a < s then a else s) := rfl
    obtain ⟨hmem, hle, hall⟩ := ih (if a < s then a else s)
    have hle' : (if a < s then a else s) ≤ s := by split <;> omega
    have hlea : (if a < s then a else s) ≤ a := by split <;> omega
    refine ⟨?_, ?_, ?_⟩
    · rcases hmem with h | h
      · by_cases has : a < s
        · rw [hstep, h, if_pos has]
          exact Or.inr (List.mem_cons_self a l)
        · rw [hstep, h, if_neg has]
          exact Or.inl rfl
      · exact Or.inr (List.mem_cons_of_mem a (hstep ▸ h))
    · rw [hstep]
      omega
    · intro c hc
      rcases List.mem_cons.mp hc with rfl | hcl
      · rw [hstep]
        omega
      · rw [hstep]
        exact hall c hcl

/-- A `Ready` peer entry whose window covers the height. -/
def covers (kv : PeerID × scPeer) (h : Int) : Prop :=
  kv.2.state = .Ready ∧ kv.2.base ≤ h ∧ h ≤ kv.2.height

instance (kv : PeerID × scPeer) (h : Int) : Decidable (covers kv h) := by
  unfold covers
  infer_instance

theorem mem_getPeersWithHeight (sc : scheduler) (h : Int) (x : PeerID) :
    x ∈ sc.getPeersWithHeight h ↔ ∃ kv ∈ sc.peers, covers kv h ∧ kv.2.peerID = x := by
  simp only [scheduler.getPeersWithHeight, List.mem_map, List.mem_filter, covers,
    decide_eq_true_eq]
  constructor
  · rintro ⟨kv, ⟨hmem, hcond⟩, rfl⟩
    exact ⟨kv, hmem, hcond, rfl⟩
  · rintro ⟨kv, hmem, hcond, rfl⟩
    exact ⟨kv, ⟨hmem, hcond⟩, rfl⟩

/-- C4 (confirmed): whenever some `Ready` peer's window covers `h`,
`selectPeer(h)` returns a `Ready` covering peer with the minimum number of
currently pending blocks, and no other covering peer with that same count
has a byte-wise smaller id; `selectPeer(h)` returns an error exactly when
no `Ready` peer covers `h`.  (The Go `len` is bounded by `math.MaxInt64`;
the hypothesis reflects that machine-integer bound.) -/
theorem C4_selectPeer_spec (sc : scheduler) (h : Int)
    (hbound : sc.pendingBlocks.length ≤ scheduler.maxInt64.toNat) :
    ((∃ kv ∈ sc.peers, covers kv h) →
      ∃ best, sc.selectPeer h = .ok best ∧
        (∃ kv ∈ sc.peers, covers kv h ∧ kv.2.peerID = best) ∧
        (∀ kv ∈ sc.peers, covers kv h →
          (sc.pendingFrom best).length ≤ (sc.pendingFrom kv.2.peerID).length) ∧
        (∀ kv ∈ sc.peers, covers kv h →
          (sc.pendingFrom kv.2.peerID).length = (sc.pendingFrom best).length →
          idLt kv.2.peerID best = false)) ∧
    ((∃ e, sc.selectPeer h = .error e) ↔ ¬ ∃ kv ∈ sc.peers, covers kv h) := by
  have hcount : ∀ id : PeerID, (sc.pendingFrom id).length ≤ scheduler.maxInt64.toNat := by
    intro id
    calc (sc.pendingFrom id).length
        = (sc.pendingBlocks.filter (fun kv => decide (kv.2 = id))).length := by
          rw [scheduler.pendingFrom, List.length_map]
      _ ≤ sc.pendingBlocks.length := List.length_filter_le _ _
      _ ≤ scheduler.maxInt64.toNat := hbound
  have main : (∃ kv ∈ sc.peers, covers kv h) →
      ∃ best, sc.selectPeer h = .ok best ∧
        (∃ kv ∈ sc.peers, covers kv h ∧ kv.2.peerID = best) ∧
        (∀ kv ∈ sc.peers, covers kv h →
          (sc.pendingFrom best).length ≤ (sc.pendingFrom kv.2.peerID).length) ∧
        (∀ kv ∈ sc.peers, covers kv h →
          (sc.pendingFrom kv.2.peerID).length = (sc.pendingFrom best).length →
          idLt kv.2.peerID best = false) := by
    rintro ⟨kv0, hkv0, hcov0⟩
    set peersL := sc.getPeersWithHeight h with hpeersL
    have hne : peersL ≠ [] := by
      intro hnil
      have : kv0.2.peerID ∈ peersL :=
        (mem_getPeersWithHeight sc h _).mpr ⟨kv0, hkv0, hcov0, rfl⟩
      rw [hnil] at this
      cases this
    set counts := peersL.map (fun id => (sc.pendingFrom id).length) with hcounts
    set mp := natMinFold counts scheduler.maxInt64.toNat with hmp
    obtain ⟨hmem, hles, hall⟩ := natMinFold_spec counts scheduler.maxInt64.toNat
    have hmpmem : mp ∈ counts := by
      rcases hmem with hs | hs
      · -- the fold never moved, so every count equals the sentinel
        rw [← hmp] at hs
        cases hc0 : counts with
        | nil =>
          exfalso
          apply hne
          cases hl : peersL with
          | nil => rfl
          | cons p ps =>
            rw [hcounts, hl] at hc0
            exact absurd hc0 (by simp)
        | cons c cs =>
          have hcmem : c ∈ counts := by rw [hc0]; exact List.mem_cons_self _ _
          have h1 : mp ≤ c := hall c hcmem
          have h2 : c ≤ scheduler.maxInt64.toNat := by
            rw [hcounts] at hcmem
            obtain ⟨id, _, rfl⟩ := List.mem_map.mp hcmem
            exact hcount id
          have hceq : c = mp := by omega
          rw [← hceq]
          exact List.mem_cons_self c cs
      · rw [← hmp] at hs
        exact hs
    obtain ⟨id0, hid0, hid0c⟩ := List.mem_map.mp (hcounts ▸ hmpmem)
    have hfil : id0 ∈ peersL.filter (fun id => decide ((sc.pendingFrom id).length = mp)) :=
      List.mem_filter.mpr ⟨hid0, by simpa using hid0c⟩
    have hsortne : sortByID (peersL.filter
        (fun id => decide ((sc.pendingFrom id).length = mp))) ≠ [] := by
      intro hnil
      have := (mem_sortByID id0 _).mpr hfil
      rw [hnil] at this
      cases this
    cases hsort : sortByID (peersL.filter
        (fun id => decide ((sc.pendingFrom id).length = mp))) with
    | nil => exact absurd hsort hsortne
    | cons best rest =>
      have hsel : sc.selectPeer h = .ok best := by
        rw [scheduler.selectPeer, if_neg (by simp [← hpeersL, List.isEmpty_iff, hne])]
        simp only [← hpeersL, ← hcounts, ← hmp]
        rw [hsort]
      have hbestfil : best ∈ peersL.filter
          (fun id => decide ((sc.pendingFrom id).length = mp)) := by
        rw [← mem_sortByID, hsort]
        exact List.mem_cons_self _ _
      obtain ⟨hbestL, hbestc⟩ := List.mem_filter.mp hbestfil
      have hbestc' : (sc.pendingFrom best).length = mp := by simpa using hbestc
      refine ⟨best, hsel, ?_, ?_, ?_⟩
      · obtain ⟨kv, hkv, hcov, hpid⟩ := (mem_getPeersWithHeight sc h best).mp hbestL
        exact ⟨kv, hkv, hcov, hpid⟩
      · intro kv hkv hcov
        have : (sc.pendingFrom kv.2.peerID).length ∈ counts := by
          rw [hcounts]
          exact List.mem_map.mpr ⟨kv.2.peerID,
            (mem_getPeersWithHeight sc h _).mpr ⟨kv, hkv, hcov, rfl⟩, rfl⟩
        rw [hbestc']
        exact hall _ this
      · intro kv hkv hcov hceq
        have hkvfil : kv.2.peerID ∈ peersL.filter
            (fun id => decide ((sc.pendingFrom id).length = mp)) := by
          refine List.mem_filter.mpr ⟨(mem_getPeersWithHeight sc h _).mpr
            ⟨kv, hkv, hcov, rfl⟩, by simp [hceq, hbestc']⟩
        exact sortByID_head_min _ best rest hsort _ hkvfil
  refine ⟨main, ?_, ?_⟩
  · rintro ⟨e, herr⟩ hcov
    obtain ⟨best, hsel, _⟩ := main hcov
    rw [hsel] at herr
    cases herr
  · intro hnocov
    have hnil : sc.getPeersWithHeight h = [] := by
      cases hl : sc.getPeersWithHeight h with
      | nil => rfl
      | cons p ps =>
        exfalso
        have : p ∈ sc.getPeersWithHeight h := by rw [hl]; exact List.mem_cons_self _ _
        obtain ⟨kv, hkv, hcov, _⟩ := (mem_getPeersWithHeight sc h p).mp this
        exact hnocov ⟨kv, hkv, hcov⟩
    refine ⟨"cannot find peer for height", ?_⟩
    rw [scheduler.selectPeer, if_pos (by simp [hnil])]

def c4sc : scheduler :=
  { newScheduler 1 0 with
    peers := [([98], { peerID := [98], state := .Ready, base := 1, height := 10,
                        lastTouched := 0, lastRate := 0 }),
              ([97], { peerID := [97], state := .Ready, base := 1, height := 10,
                        lastTouched := 0, lastRate := 0 })]
    pendingBlocks := [(2, [97])] }

/-- C4 witness: two Ready peers covering height 3; peer `[97]` already
holds one pending block, so `selectPeer 3` picks `[98]`. -/
theorem C4_witness :
    c4sc.pendingBlocks.length ≤ scheduler.maxInt64.toNat ∧
    (∃ kv ∈ c4sc.peers, covers kv 3) ∧
    (∃ best, c4sc.selectPeer 3 = .ok best ∧
      (∃ kv ∈ c4sc.peers, covers kv 3 ∧ kv.2.peerID = best) ∧
      (∀ kv ∈ c4sc.peers, covers kv 3 →
        (c4sc.pendingFrom best).length ≤ (c4sc.pendingFrom kv.2.peerID).length) ∧
      (∀ kv ∈ c4sc.peers, covers kv 3 →
        (c4sc.pendingFrom kv.2.peerID).length = (c4sc.pendingFrom best).length →
        idLt kv.2.peerID best = false)) :=
  have hb : c4sc.pendingBlocks.length ≤ scheduler.maxInt64.toNat := by decide
  have hcov : ∃ kv ∈ c4sc.peers, covers kv 3 :=
    ⟨([98], { peerID := [98], state := .Ready, base := 1, height := 10,
              lastTouched := 0, lastRate := 0 }),
      List.mem_cons_self _ _, by decide, by decide, by decide⟩
  ⟨hb, hcov, (C4_selectPeer_spec c4sc 3 hb).1 hcov⟩

/-! ## Claim C5: key-set lemmas -/

theorem mem_ainsert [DecidableEq κ] {m : List (κ × ν)} {k : κ} {v : ν} {kv : κ × ν}
    (h : kv ∈ ainsert m k v) : kv = (k, v) ∨ kv ∈ m := by
  induction m with
  | nil => simpa [ainsert] using h
  | cons kv0 rest ih =>
    by_cases hk : kv0.1 = k
    · rw [ainsert, if_pos hk] at h
      rcases List.mem_cons.mp h with rfl | hm
      · exact Or.inl rfl
      · exact Or.inr (List.mem_cons_of_mem _ hm)
    · rw [ainsert, if_neg hk] at h
      rcases List.mem_cons.mp h with rfl | hm
      · exact Or.inr (List.mem_cons_self _ _)
      · rcases ih hm with h1 | h1
        · exact Or.inl h1
        · exact Or.inr (List.mem_cons_of_mem _ h1)

theorem mem_akeys_ainsert [DecidableEq κ] {m : List (κ × ν)} {k x : κ} {v : ν}
    (h : x ∈ akeys (ainsert m k v)) : x = k ∨ x ∈ akeys m := by
  obtain ⟨kv, hkv, rfl⟩ := List.mem_map.mp h
  rcases mem_ainsert hkv with rfl | h1
  · exact Or.inl rfl
  · exact Or.inr (List.mem_map.mpr ⟨kv, h1, rfl⟩)

theorem akeys_nodup_ainsert [DecidableEq κ] {m : List (κ × ν)} (k : κ) (v : ν)
    (h : (akeys m).Nodup) : (akeys (ainsert m k v)).Nodup := by
  induction m with
  | nil => simp [ainsert, akeys]
  | cons kv rest ih =>
    rw [akeys, List.map_cons, List.nodup_cons] at h
    by_cases hk : kv.1 = k
    · rw [ainsert, if_pos hk, akeys, List.map_cons, List.nodup_cons]
      exact ⟨hk ▸ h.1, h.2⟩
    · rw [ainsert, if_neg hk, akeys, List.map_cons, List.nodup_cons]
      refine ⟨?_, ih h.2⟩
      intro hmem
      rcases mem_akeys_ainsert hmem with h1 | h1
      · exact hk h1
      · exact h.1 h1

theorem akeys_sublist_aerase [DecidableEq κ] (m : List (κ × ν)) (k : κ) :
    (akeys (aerase m k)).Sublist (akeys m) :=
  List.Sublist.map Prod.fst (List.filter_sublist m)

theorem akeys_nodup_aerase [DecidableEq κ] {m : List (κ × ν)} (k : κ)
    (h : (akeys m).Nodup) : (akeys (aerase m k)).Nodup :=
  (akeys_sublist_aerase m k).nodup h

theorem mem_aerase [DecidableEq κ] {m : List (κ × ν)} {k : κ} {kv : κ × ν} :
    kv ∈ aerase m k ↔ kv ∈ m ∧ kv.1 ≠ k := by
  simp [aerase, List.mem_filter]

/-- Every key of the table lies in `[lo, hi)`. -/
def keysInWindow (m : List (Int × ν)) (lo hi : Int) : Prop :=
  ∀ kv ∈ m, lo ≤ kv.1 ∧ kv.1 < hi

theorem keysInWindow_ainsert {m : List (Int × ν)} {lo hi k : Int} (v : ν)
    (h : keysInWindow m lo hi) (hk : lo ≤ k ∧ k < hi) :
    keysInWindow (ainsert m k v) lo hi := by
  intro kv hkv
  rcases mem_ainsert hkv with rfl | h1
  · exact hk
  · exact h kv h1

theorem keysInWindow_aerase {m : List (Int × ν)} {lo hi : Int} (k : Int)
    (h : keysInWindow m lo hi) : keysInWindow (aerase m k) lo hi :=
  fun kv hkv => h kv (mem_aerase.mp hkv).1

theorem keysInWindow_filter {m : List (Int × ν)} {lo hi : Int} (p : Int × ν → Bool)
    (h : keysInWindow m lo hi) : keysInWindow (m.filter p) lo hi :=
  fun kv hkv => h kv (List.mem_filter.mp hkv).1

theorem keysInWindow_shift {m : List (Int × ν)} {lo hi : Int}
    (h : keysInWindow m lo hi) (hlo : ∀ kv ∈ m, kv.1 ≠ lo) :
    keysInWindow m (lo + 1) hi := by
  intro kv hkv
  have h1 := h kv hkv
  have h2 := hlo kv hkv
  omega

theorem keysInWindow_mono {m : List (Int × ν)} {lo hi hi' : Int}
    (h : keysInWindow m lo hi) (hh : hi ≤ hi') : keysInWindow m lo hi' := by
  intro kv hkv
  have h1 := h kv hkv
  omega

/-- Fold-insert of a list of keys, each inside the window. -/
theorem foldl_ainsert_inv {lo hi : Int} (v : ν) :
    ∀ (hs : List Int) (m : List (Int × ν)), (akeys m).Nodup → keysInWindow m lo hi →
    (∀ x ∈ hs, lo ≤ x ∧ x < hi) →
    (akeys (hs.foldl (fun bs h => ainsert bs h v) m)).Nodup ∧
      keysInWindow (hs.foldl (fun bs h => ainsert bs h v) m) lo hi := by
  intro hs
  induction hs with
  | nil => exact fun m h1 h2 _ => ⟨h1, h2⟩
  | cons a hs ih =>
    intro m h1 h2 h3
    rw [List.foldl_cons]
    exact ih (ainsert m a v) (akeys_nodup_ainsert a v h1)
      (keysInWindow_ainsert v h2 (h3 a (List.mem_cons_self _ _)))
      (fun x hx => h3 x (List.mem_cons_of_mem _ hx))

theorem foldl_aerase_inv {lo hi : Int} :
    ∀ (hs : List Int) (m : List (Int × ν)), (akeys m).Nodup → keysInWindow m lo hi →
    (akeys (hs.foldl aerase m)).Nodup ∧ keysInWindow (hs.foldl aerase m) lo hi := by
  intro hs
  induction hs with
  | nil => exact fun m h1 h2 => ⟨h1, h2⟩
  | cons a hs ih =>
    intro m h1 h2
    rw [List.foldl_cons]
    exact ih (aerase m a) (akeys_nodup_aerase a h1) (keysInWindow_aerase a h2)

theorem alookup_some_key_mem [DecidableEq κ] {m : List (κ × ν)} {k : κ} {v : ν}
    (h : alookup m k = some v) : (k, v) ∈ m := mem_of_alookup_eq_some h

/-- A table with no duplicate keys, all inside a window of width `n`, has
at most `n` entries. -/
theorem length_le_of_window (m : List (Int × ν)) (lo : Int) (n : Nat)
    (h1 : (akeys m).Nodup) (h2 : keysInWindow m lo (lo + n)) : m.length ≤ n := by
  have hlen : m.length = (akeys m).length := (List.length_map _ _).symm
  have hsub : (akeys m).toFinset ⊆ Finset.Ico lo (lo + n) := by
    intro x hx
    rw [List.mem_toFinset] at hx
    obtain ⟨kv, hkv, rfl⟩ := List.mem_map.mp hx
    have := h2 kv hkv
    rw [Finset.mem_Ico]
    omega
  have hcard := Finset.card_le_card hsub
  rw [List.toFinset_card_of_nodup h1, Int.card_Ico] at hcard
  omega

/-! ## Claim C5: the scheduler table invariant -/

/-- All four block-indexed tables have distinct keys inside the window
`[cursor, cursor + targetPending)`. -/
def Inv (sc : scheduler) : Prop :=
  (akeys sc.blockStates).Nodup ∧ (akeys sc.pendingBlocks).Nodup ∧
  (akeys sc.pendingTime).Nodup ∧ (akeys sc.receivedBlocks).Nodup ∧
  keysInWindow sc.blockStates sc.height (sc.height + sc.targetPending) ∧
  keysInWindow sc.pendingBlocks sc.height (sc.height + sc.targetPending) ∧
  keysInWindow sc.pendingTime sc.height (sc.height + sc.targetPending) ∧
  keysInWindow sc.receivedBlocks sc.height (sc.height + sc.targetPending)

theorem akeys_nodup_filter [DecidableEq κ] {m : List (κ × ν)} (p : κ × ν → Bool)
    (h : (akeys m).Nodup) : (akeys (m.filter p)).Nodup :=
  (List.Sublist.map Prod.fst (List.filter_sublist m)).nodup h

theorem window_of_filter_keys {m : List (Int × ν)} {lo hi : Int} (p : Int × ν → Bool)
    (h : keysInWindow m lo hi) : ∀ x ∈ (m.filter p).map Prod.fst, lo ≤ x ∧ x < hi := by
  intro x hx
  obtain ⟨kv, hkv, rfl⟩ := List.mem_map.mp hx
  exact h kv (List.mem_filter.mp hkv).1

theorem newScheduler_inv (initHeight : Int) (t0 : Time) : Inv (newScheduler initHeight t0) := by
  refine ⟨List.nodup_nil, List.nodup_nil, List.nodup_nil, List.nodup_nil, ?_, ?_, ?_, ?_⟩ <;>
    { intro kv hkv; cases hkv }

theorem removePeer_inv (sc : scheduler) (id : PeerID) (hinv : Inv sc) :
    Inv (sc.removePeer id) := by
  obtain ⟨n1, n2, n3, n4, w1, w2, w3, w4⟩ := hinv
  unfold scheduler.removePeer
  split
  · exact ⟨n1, n2, n3, n4, w1, w2, w3, w4⟩
  · split
    · exact ⟨n1, n2, n3, n4, w1, w2, w3, w4⟩
    · have hpend := window_of_filter_keys (fun kv => decide (kv.2 = id)) w2
      have hrcv := window_of_filter_keys (fun kv => decide (kv.2 = id)) w4
      have hbs1 := foldl_ainsert_inv blockState.New
        ((sc.pendingBlocks.filter (fun kv => decide (kv.2 = id))).map Prod.fst)
        sc.blockStates n1 w1 hpend
      have hbs2 := foldl_ainsert_inv blockState.New
        ((sc.receivedBlocks.filter (fun kv => decide (kv.2 = id))).map Prod.fst)
        _ hbs1.1 hbs1.2 hrcv
      have hpb := foldl_aerase_inv
        ((sc.pendingBlocks.filter (fun kv => decide (kv.2 = id))).map Prod.fst)
        sc.pendingBlocks n2 w2
      have hpt := foldl_aerase_inv
        ((sc.pendingBlocks.filter (fun kv => decide (kv.2 = id))).map Prod.fst)
        sc.pendingTime n3 w3
      have hrb := foldl_aerase_inv
        ((sc.receivedBlocks.filter (fun kv => decide (kv.2 = id))).map Prod.fst)
        sc.receivedBlocks n4 w4
      exact ⟨akeys_nodup_filter _ hbs2.1, hpb.1, hpt.1, hrb.1,
        keysInWindow_filter _ hbs2.2, hpb.2, hpt.2, hrb.2⟩

theorem addNewLoop_inv (cursor maxH : Int) (tp : Nat) :
    ∀ (fuel : Nat) (i : Int) (bs : List (Int × blockState)),
    (akeys bs).Nodup → keysInWindow bs cursor (cursor + tp) →
    cursor ≤ i → i + (fuel : Int) ≤ cursor + (tp : Int) →
    (akeys (scheduler.addNewLoop cursor maxH fuel i bs)).Nodup ∧
      keysInWindow (scheduler.addNewLoop cursor maxH fuel i bs) cursor (cursor + tp) := by
  intro fuel
  induction fuel with
  | zero => exact fun i bs h1 h2 _ _ => ⟨h1, h2⟩
  | succ n ih =>
    intro i bs h1 h2 h3 h4
    rw [scheduler.addNewLoop]
    split
    · exact ⟨h1, h2⟩
    · by_cases hu : (if i < cursor then blockState.Processed
          else (alookup bs i).getD .Unknown) = .Unknown
      · rw [if_pos hu]
        exact ih (i + 1) _ (akeys_nodup_ainsert _ _ h1)
          (keysInWindow_ainsert _ h2 ⟨h3, by push_cast at h4 ⊢; omega⟩)
          (by omega) (by push_cast at h4 ⊢; omega)
      · rw [if_neg hu]
        exact ih (i + 1) bs h1 h2 (by omega) (by push_cast at h4 ⊢; omega)

theorem addNewBlocks_inv (sc : scheduler) (hinv : Inv sc) : Inv sc.addNewBlocks := by
  obtain ⟨n1, n2, n3, n4, w1, w2, w3, w4⟩ := hinv
  unfold scheduler.addNewBlocks
  split
  · exact ⟨n1, n2, n3, n4, w1, w2, w3, w4⟩
  · have h := addNewLoop_inv sc.height (scheduler.maxHeight sc) sc.targetPending
      sc.targetPending sc.height sc.blockStates n1 w1 le_rfl (by omega)
    exact ⟨h.1, n2, n3, n4, h.2, w2, w3, w4⟩

theorem ensurePeer_inv (sc : scheduler) (id : PeerID) (hinv : Inv sc) :
    Inv (sc.ensurePeer id) := by
  unfold scheduler.ensurePeer
  cases alookup sc.peers id with
  | some _ => exact hinv
  | none => exact hinv

theorem setPeerRange_inv (sc : scheduler) (id : PeerID) (base height : Int)
    (hinv : Inv sc) : Inv (sc.setPeerRange id base height).1 := by
  have hens : Inv (sc.ensurePeer id) := ensurePeer_inv sc id hinv
  unfold scheduler.setPeerRange
  simp only []
  cases hlk : alookup (sc.ensurePeer id).peers id with
  | none =>
    simp only [hlk]
    exact hens
  | some peer =>
    simp only [hlk]
    by_cases h1 : peer.state = .Removed
    · rw [if_pos h1]
      exact hens
    · rw [if_neg h1]
      by_cases h2 : height < peer.height
      · rw [if_pos h2]
        exact removePeer_inv _ id hens
      · rw [if_neg h2]
        by_cases h3 : height < base
        · rw [if_pos h3]
          exact removePeer_inv _ id hens
        · rw [if_neg h3]
          exact addNewBlocks_inv _ hens

theorem touchPeer_inv (sc : scheduler) (id : PeerID) (t : Time) (sc' : scheduler)
    (hok : sc.touchPeer id t = .ok sc') (hinv : Inv sc) : Inv sc' := by
  unfold scheduler.touchPeer at hok
  split at hok
  · cases hok
  · split at hok
    · cases hok
    · cases hok
      exact hinv

theorem markPending_inv (sc : scheduler) (id : PeerID) (height : Int) (t : Time)
    (sc' : scheduler) (hok : sc.markPending id height t = .ok sc') (hinv : Inv sc) :
    Inv sc' := by
  obtain ⟨n1, n2, n3, n4, w1, w2, w3, w4⟩ := hinv
  unfold scheduler.markPending at hok
  split at hok
  · cases hok
  · rename_i hnew
    have hstate : sc.getStateAtHeight height = .New := by
      by_contra hne
      exact hnew hne
    have hwin : sc.height ≤ height ∧ height < sc.height + sc.targetPending := by
      rw [scheduler.getStateAtHeight] at hstate
      split at hstate
      · cases hstate
      · cases hbs : alookup sc.blockStates height with
        | none => rw [hbs] at hstate; cases hstate
        | some st => exact w1 _ (mem_of_alookup_eq_some hbs)
    split at hok
    · cases hok
    · split at hok
      · cases hok
      · split at hok
        · cases hok
        · split at hok
          · cases hok
          · cases hok
            exact ⟨akeys_nodup_ainsert _ _ n1, akeys_nodup_ainsert _ _ n2,
              akeys_nodup_ainsert _ _ n3, n4,
              keysInWindow_ainsert _ w1 hwin, keysInWindow_ainsert _ w2 hwin,
              keysInWindow_ainsert _ w3 hwin, w4⟩

theorem markReceived_inv (sc : scheduler) (id : PeerID) (height size : Int)
    (now : Time) (sc' : scheduler) (hok : sc.markReceived id height size now = .ok sc')
    (hinv : Inv sc) : Inv sc' := by
  obtain ⟨n1, n2, n3, n4, w1, w2, w3, w4⟩ := hinv
  unfold scheduler.markReceived at hok
  split at hok
  · cases hok
  · rename_i hguard
    push_neg at hguard
    have hwin : sc.height ≤ height ∧ height < sc.height + sc.targetPending := by
      have hstate := hguard.1
      rw [scheduler.getStateAtHeight] at hstate
      split at hstate
      · cases hstate
      · cases hbs : alookup sc.blockStates height with
        | none => rw [hbs] at hstate; cases hstate
        | some st => exact w1 _ (mem_of_alookup_eq_some hbs)
    split at hok
    · cases hok
    · split at hok
      · cases hok
      · split at hok
        · cases hok
        · cases hok
          exact ⟨akeys_nodup_ainsert _ _ n1, akeys_nodup_aerase _ n2,
            akeys_nodup_aerase _ n3, akeys_nodup_ainsert _ _ n4,
            keysInWindow_ainsert _ w1 hwin, keysInWindow_aerase _ w2,
            keysInWindow_aerase _ w3, keysInWindow_ainsert _ w4 hwin⟩

theorem markProcessed_inv (sc : scheduler) (now : Time) (hinv : Inv sc) :
    Inv (sc.markProcessed sc.height now) := by
  obtain ⟨n1, n2, n3, n4, w1, w2, w3, w4⟩ := hinv
  apply addNewBlocks_inv
  refine ⟨akeys_nodup_aerase _ n1, akeys_nodup_aerase _ n2,
    akeys_nodup_aerase _ n3, akeys_nodup_aerase _ n4, ?_, ?_, ?_, ?_⟩ <;>
  · refine keysInWindow_mono (keysInWindow_shift (keysInWindow_aerase _ (by assumption)) ?_)
      (by push_cast; omega)
    intro kv hkv
    exact (mem_aerase.mp hkv).2

theorem foldl_removePeer_inv :
    ∀ (ids : List PeerID) (sc : scheduler), Inv sc →
    Inv (ids.foldl scheduler.removePeer sc) := by
  intro ids
  induction ids with
  | nil => exact fun sc h => h
  | cons a ids ih =>
    intro sc h
    rw [List.foldl_cons]
    exact ih _ (removePeer_inv sc a h)

theorem pruneStep1_inv (sc : scheduler) (now : Time) (hinv : Inv sc) :
    Inv (sc.pruneStep1 now) := by
  unfold scheduler.pruneStep1
  cases hpt : alookup sc.pendingTime sc.height with
  | none =>
    simp only [hpt]
    exact hinv
  | some t =>
    simp only [hpt]
    split
    · exact removePeer_inv _ _ hinv
    · exact hinv

/-- The invariant is preserved by every handler except `resetState`. -/
theorem handle_inv (sc : scheduler) (ev : Event) (now : Time) (out : OutEvent)
    (sc' : scheduler) (hres : sc.handle ev now = some (out, sc'))
    (hev : isResetState ev = false) (hinv : Inv sc) : Inv sc' := by
  cases ev with
  | bcResetState lbh ih => simp [isResetState] at hev
  | bcStatusResponse id base height =>
    rw [scheduler.handle] at hres
    rw [scheduler.handleStatusResponse] at hres
    rcases hsp : sc.setPeerRange id base height with ⟨sc1, err⟩
    rw [hsp] at hres
    have hinv1 : Inv sc1 := by
      have := setPeerRange_inv sc id base height hinv
      rw [hsp] at this
      exact this
    cases err with
    | none =>
      simp only [] at hres
      cases hres
      exact hinv1
    | some e =>
      simp only [] at hres
      cases hres
      exact hinv1
  | bcBlockResponse id height size t =>
    rw [scheduler.handle, scheduler.handleBlockResponse] at hres
    cases htc : sc.touchPeer id t with
    | error e =>
      rw [htc] at hres
      simp only [] at hres
      cases hres
      exact hinv
    | ok sc1 =>
      rw [htc] at hres
      simp only [] at hres
      have hinv1 : Inv sc1 := touchPeer_inv sc id t sc1 htc hinv
      cases hmr : sc1.markReceived id height size t with
      | error e =>
        rw [hmr] at hres
        simp only [] at hres
        cases hres
        exact removePeer_inv sc1 id hinv1
      | ok sc2 =>
        rw [hmr] at hres
        simp only [] at hres
        cases hres
        exact markReceived_inv sc1 id height size t _ hmr hinv1
  | bcNoBlockResponse id height =>
    rw [scheduler.handle, scheduler.handleNoBlockResponse] at hres
    cases hlk : alookup sc.peers id with
    | none =>
      rw [hlk] at hres
      simp only [] at hres
      cases hres
      exact hinv
    | some peer =>
      rw [hlk] at hres
      simp only [] at hres
      split at hres
      · cases hres
        exact hinv
      · cases hres
        exact removePeer_inv sc id hinv
  | rTrySchedule t =>
    rw [scheduler.handle, scheduler.handleTrySchedule] at hres
    split at hres
    · cases hres
      exact hinv
    · simp only [] at hres
      split at hres
      · cases hres
        exact hinv
      · cases hsl : sc.selectPeer sc.nextHeightToSchedule with
        | error e =>
          rw [hsl] at hres
          simp only [] at hres
          cases hres
          exact hinv
        | ok best =>
          rw [hsl] at hres
          simp only [] at hres
          cases hmp : sc.markPending best sc.nextHeightToSchedule t with
          | error e =>
            rw [hmp] at hres
            simp only [] at hres
            cases hres
            exact hinv
          | ok sc1 =>
            rw [hmp] at hres
            simp only [] at hres
            cases hres
            exact markPending_inv sc best sc.nextHeightToSchedule t _ hmp hinv
  | bcAddNewPeer id =>
    rw [scheduler.handle, scheduler.handleAddNewPeer] at hres
    cases hres
    exact ensurePeer_inv sc id hinv
  | bcRemovePeer id =>
    rw [scheduler.handle, scheduler.handleRemovePeer] at hres
    have hinv1 : Inv (sc.removePeer id) := removePeer_inv sc id hinv
    split at hres
    · cases hres
      exact hinv1
    · cases hres
      exact hinv1
  | rTryPrunePeer t =>
    rw [scheduler.handle, scheduler.handleTryPrunePeer] at hres
    have hinv1 : Inv (sc.pruneStep1 now) := pruneStep1_inv sc now hinv
    split at hres
    · cases hres
      exact hinv1
    · have hsc' : sc' = List.foldl scheduler.removePeer (sc.pruneStep1 now)
          ((sc.pruneStep1 now).prunablePeers (sc.pruneStep1 now).peerTimeout
            (sc.pruneStep1 now).minRecvRate t) := by
        by_cases hall : (List.foldl scheduler.removePeer (sc.pruneStep1 now)
            ((sc.pruneStep1 now).prunablePeers (sc.pruneStep1 now).peerTimeout
              (sc.pruneStep1 now).minRecvRate t)).allBlocksProcessed <;>
          simp [hall] at hres <;> exact hres.2.symm
      rw [hsc']
      exact foldl_removePeer_inv _ _ hinv1
  | pcBlockProcessed h =>
    rw [scheduler.handle, scheduler.handleBlockProcessed] at hres
    split at hres
    · cases hres
    · rename_i hc
      push_neg at hc
      subst hc
      have hinv1 : Inv (sc.markProcessed sc.height now) := markProcessed_inv sc now hinv
      have hsc' : sc' = sc.markProcessed sc.height now := by
        by_cases hall : (sc.markProcessed sc.height now).allBlocksProcessed <;>
          simp [hall] at hres <;> exact hres.2.symm
      rw [hsc']
      exact hinv1
  | pcBlockVerificationFailure a b =>
    rw [scheduler.handle, scheduler.handleBlockProcessError] at hres
    have hinv1 : Inv (sc.removePeer a) := removePeer_inv sc a hinv
    have hinv2 : Inv (if a ≠ b then (sc.removePeer a).removePeer b else sc.removePeer a) := by
      split
      · exact removePeer_inv _ b hinv1
      · exact hinv1
    have hsc' : sc' = if a ≠ b then (sc.removePeer a).removePeer b else sc.removePeer a := by
      by_cases hab : a ≠ b
      · rw [if_pos hab]
        by_cases hall : ((sc.removePeer a).removePeer b).allBlocksProcessed <;>
          simp [hab, hall] at hres <;> exact hres.2.symm
      · rw [if_neg hab]
        by_cases hall : (sc.removePeer a).allBlocksProcessed <;>
          simp [hab, hall] at hres <;> exact hres.2.symm
    rw [hsc']
    exact hinv2

theorem foldl_stepEv_inv :
    ∀ (tr : List (Event × Time)) (o : Option scheduler),
    (∀ sc, o = some sc → Inv sc) → noReset tr = true →
    ∀ sc', tr.foldl stepEv o = some sc' → Inv sc' := by
  intro tr
  induction tr with
  | nil =>
    intro o ho _ sc' hrun
    exact ho sc' hrun
  | cons p tr ih =>
    intro o ho hnr sc' hrun
    rw [List.foldl_cons] at hrun
    have hnr' : noReset tr = true := by
      rw [noReset, List.all_cons] at hnr
      exact (Bool.and_eq_true_iff.mp hnr).2
    have hp : isResetState p.1 = false := by
      rw [noReset, List.all_cons] at hnr
      have := (Bool.and_eq_true_iff.mp hnr).1
      cases h : isResetState p.1
      · rfl
      · rw [h] at this
        cases this
    refine ih (stepEv o p) ?_ hnr' sc' hrun
    intro sc hsc
    cases o with
    | none => cases hsc
    | some sc0 =>
      have h0 : Inv sc0 := ho sc0 rfl
      rw [stepEv] at hsc
      cases hh : sc0.handle p.1 p.2 with
      | none => rw [hh] at hsc; cases hsc
      | some pr =>
        rw [hh] at hsc
        have hsc2 : some pr.2 = some sc := hsc
        cases hsc2
        exact handle_inv sc0 p.1 p.2 pr.1 pr.2 (by rw [hh]) hp h0

/-- C5 (corrected, amended): in every scheduler state reachable from a
fresh scheduler by handler steps none of which is a `resetState` event —
in particular immediately after a `trySchedule` event is handled — the
number of block-table entries is at most `targetPending`.  (`resetState`
can move the cursor below existing entries without clearing the table and
then overfill it; see the counterexample.) -/
theorem C5_cap_without_resetState (initHeight : Int) (t0 : Time)
    (tr : List (Event × Time)) (hnr : noReset tr = true) :
    blockTableSize (runTrace (newScheduler initHeight t0) tr) ≤
      targetBound (runTrace (newScheduler initHeight t0) tr) := by
  cases hrun : runTrace (newScheduler initHeight t0) tr with
  | none => exact le_refl 0
  | some sc =>
    have hinv : Inv sc := by
      refine foldl_stepEv_inv tr (some (newScheduler initHeight t0)) ?_ hnr sc hrun
      intro s hs
      cases hs
      exact newScheduler_inv initHeight t0
    obtain ⟨n1, _, _, _, w1, _, _, _⟩ := hinv
    exact length_le_of_window sc.blockStates sc.height sc.targetPending n1 w1

def c5trace : List (Event × Time) :=
  [ (.bcAddNewPeer [97], 0)
  , (.bcStatusResponse [97] 1 104, 0)
  , (.bcResetState 0 1, 0)
  , (.rTrySchedule 1, 0) ]

set_option maxRecDepth 8000 in
/-- C5 counterexample: from `newScheduler 100`, a peer covering
`[1, 104]` yields five entries `100..104`; a `resetState` to height `1`
keeps them and refills ten more (`1..10`), and the following
`trySchedule` is handled normally — the run ends with 15 block entries,
exceeding `targetPending = 10`. -/
theorem C5_counterexample :
    (runTrace (newScheduler 100 0) c5trace).isSome = true ∧
    c5trace.getLast? = some (Event.rTrySchedule 1, 0) ∧
    targetBound (runTrace (newScheduler 100 0) c5trace) = 10 ∧
    blockTableSize (runTrace (newScheduler 100 0) c5trace) = 15 := by
  refine ⟨rfl, rfl, rfl, ?_⟩
  decide

def c5wtrace : List (Event × Time) :=
  [ (.bcAddNewPeer [97], 0)
  , (.bcStatusResponse [97] 1 104, 0)
  , (.rTrySchedule 1, 0) ]

/-- C5 witness: the amended bound on a concrete reset-free trace ending
in `trySchedule`. -/
theorem C5_witness :
    noReset c5wtrace = true ∧
    blockTableSize (runTrace (newScheduler 100 0) c5wtrace) ≤
      targetBound (runTrace (newScheduler 100 0) c5wtrace) :=
  ⟨rfl, C5_cap_without_resetState 100 0 c5wtrace rfl⟩

end FastSync
